import Mathlib

/-
Verification of cmd/link/internal/ld/macho_update_uuid.go.

The file under src/ provides two functions: uuidFromGoBuildId, which derives
a 16-byte LC_UUID payload from the Go build ID, and machoRewriteUuid, which
copies a Mach-O executable and patches the first LC_UUID load command with
the derived payload.  Helpers that live elsewhere in the toolchain
(cmd/internal/notsha256, debug/macho, loadCmdReader, uuidCmd, LC_UUID) are
modelled from the spec, as marked in their doc comments.

Files are modelled as lists of byte values (natural numbers below 256);
multi-byte fields are decoded and encoded per the byte order declared by the
image header.
-/

/-- Byte order declared by the image header, used to decode and encode
multi-byte integer fields (binary.ByteOrder in the source). -/
inductive ByteOrder where
  | little
  | big
deriving DecidableEq

/-- Modelled from the spec: cmd/internal/notsha256.Sum256 is not under src/.
The spec requires only a deterministic 32-byte digest of the build-id string
with no failure mode; no claim depends on the internal structure of the
digest, so it is modelled as a simple deterministic 32-byte digest of the
characters of the string. -/
def notsha256Sum256 (s : String) : List Nat :=
  (List.range 32).map fun i =>
    s.data.foldl (fun a c => (a * 131 + c.toNat) % 256) i

/-- Shallow embedding of uuidFromGoBuildId (macho_update_uuid.go lines
31-51): hash the Go build ID and return 16 bytes suitable for the payload of
an LC_UUID load command, applying the bit fixups exactly as written in the
source: rv[6] &= 0x0f; rv[6] |= 0x30; rv[8] &= 0x3f; rv[8] |= 0xc0. -/
def uuidFromGoBuildId (buildID : String) : List Nat :=
  if buildID = "" then
    List.replicate 16 0
  else
    let hashedBuildID := notsha256Sum256 buildID
    let rv0 := hashedBuildID.take 16
    let rv1 := rv0.set 6 ((rv0.getD 6 0 &&& 0x0f) ||| 0x30)
    let rv2 := rv1.set 8 ((rv1.getD 8 0 &&& 0x3f) ||| 0xc0)
    rv2

/-- Modelled from the spec: the LC_UUID load-command tag. Its numeric value is
not under src/ and no claim depends on it; the standard Mach-O value is used. -/
def LC_UUID : Nat := 0x1b

/-- Modelled from the spec: macho.Magic64, the magic value marking the 64-bit
header variant (debug/macho is not under src/). -/
def Magic64 : Nat := 0xfeedfacf

/-- Modelled from the spec: unsafe.Sizeof(exem.FileHeader), the fixed portion
of the image header common to both bitness variants — seven 4-byte fields of
debug/macho.FileHeader, hence 28 bytes. -/
def fileHeaderSize : Nat := 28

/-- Modelled from the spec: the parsed header summary consumed by the
rewriter — magic/bitness, command count Ncmd, and declared byte order. -/
structure MachoFileHeader where
  magic : Nat
  ncmd : Nat
  order : ByteOrder
deriving DecidableEq

/-- Decode four byte values as one 32-bit unsigned integer per the byte
order. -/
def decodeU32 (order : ByteOrder) (bs : List Nat) : Nat :=
  match bs with
  | [b0, b1, b2, b3] =>
    match order with
    | .little => b0 + 256 * b1 + 65536 * b2 + 16777216 * b3
    | .big => b3 + 256 * b2 + 65536 * b1 + 16777216 * b0
  | _ => 0

/-- Encode a 32-bit unsigned integer as four byte values per the byte
order. -/
def encodeU32 (order : ByteOrder) (v : Nat) : List Nat :=
  match order with
  | .little => [v % 256, v / 256 % 256, v / 65536 % 256, v / 16777216 % 256]
  | .big => [v / 16777216 % 256, v / 65536 % 256, v / 256 % 256, v % 256]

/-- Modelled from the spec: a bounded 4-byte read from the output file at an
absolute offset, decoded per the byte order; fails when the read would cross
the end of the file. -/
def readU32At (order : ByteOrder) (file : List Nat) (off : Nat) : Option Nat :=
  if off + 4 ≤ file.length then
    some (decodeU32 order ((file.drop off).take 4))
  else
    none

/-- Command header at the start of every load command: tag and declared total
record size (loadCmd in the source tree). -/
structure LoadCmd where
  cmd : Nat
  len : Nat
deriving DecidableEq

/-- Modelled from the spec: loadCmdReader.Next reads a CommandHeader-shaped
record — two 4-byte fields, decoded per the byte order — at the cursor, and
fails when fewer than eight bytes remain. -/
def readLoadCmd (order : ByteOrder) (file : List Nat) (off : Nat) : Option LoadCmd :=
  match readU32At order file off, readU32At order file (off + 4) with
  | some c, some l => some ⟨c, l⟩
  | _, _ => none

/-- UUID load command (uuidCmd in the source tree): command header followed
immediately by the 16-byte UUID payload. -/
structure UuidCmd where
  cmd : Nat
  len : Nat
  uuid : List Nat
deriving DecidableEq

/-- Modelled from the spec: reader.ReadAt(0, &u) reads the 24-byte uuidCmd
record at the last record start — two header words decoded per the byte
order, then 16 payload bytes verbatim; fails when the read would cross the
end of the file. -/
def readUuidCmd (order : ByteOrder) (file : List Nat) (off : Nat) : Option UuidCmd :=
  match readU32At order file off, readU32At order file (off + 4) with
  | some c, some l =>
    if off + 24 ≤ file.length then
      some ⟨c, l, (file.drop (off + 8)).take 16⟩
    else
      none
  | _, _ => none

/-- Serialization of a uuidCmd record per the byte order (the layout
binary.Write produces): two encoded header words, then the payload bytes
verbatim. -/
def uuidCmdBytes (order : ByteOrder) (u : UuidCmd) : List Nat :=
  encodeU32 order u.cmd ++ encodeU32 order u.len ++ u.uuid

/-- Modelled from the spec: reader.WriteAt overwrites the given bytes at an
absolute offset; fails when the target region falls outside the file bounds
(overwrite only, the file never grows or shrinks). -/
def writeBytesAt (file : List Nat) (off : Nat) (bytes : List Nat) : Option (List Nat) :=
  if off + bytes.length ≤ file.length then
    some (file.take off ++ bytes ++ file.drop (off + bytes.length))
  else
    none

/-- Go copy(dst, src): copy min(len dst, len src) bytes of src over the front
of dst, leaving the rest of dst in place. -/
def copyBytes (dst src : List Nat) : List Nat :=
  src.take (min dst.length src.length) ++ dst.drop (min dst.length src.length)

/-- Error kinds surfaced by the rewriter. -/
inductive MachoErr where
  | truncatedRecord
  | outOfBounds
deriving DecidableEq

/-- Shallow embedding of the scan loop of machoRewriteUuid
(macho_update_uuid.go lines 83-99): walk up to the given number of load
commands from cursor next; on the first record whose tag is LC_UUID, read the
24-byte uuidCmd record, overwrite its UUID field with
uuidFromGoBuildId buildID via Go copy semantics, write the record back at the
same offset, and stop. -/
def rewriteLoop (order : ByteOrder) (buildID : String) (file : List Nat) :
    Nat → Nat → Except MachoErr (List Nat)
  | _next, 0 => .ok file
  | next, i + 1 =>
    match readLoadCmd order file next with
    | none => .error .truncatedRecord
    | some cmd =>
      if cmd.cmd = LC_UUID then
        match readUuidCmd order file next with
        | none => .error .truncatedRecord
        | some u =>
          let u2 : UuidCmd := { u with uuid := copyBytes u.uuid (uuidFromGoBuildId buildID) }
          match writeBytesAt file next (uuidCmdBytes order u2) with
          | none => .error .outOfBounds
          | some out => .ok out
      else
        rewriteLoop order buildID file (next + cmd.len) i

/-- Shallow embedding of the command-stream offset computation
(macho_update_uuid.go lines 69-74): the fixed image-header size, plus one
extra 4-byte word exactly when the magic marks the 64-bit variant. -/
def machoCmdOffset (hdr : MachoFileHeader) : Nat :=
  fileHeaderSize + (if hdr.magic = Magic64 then 4 else 0)

/-- Shallow embedding of machoRewriteUuid (macho_update_uuid.go lines
56-103): copy the source image verbatim to the output, then scan at most
Ncmd load commands starting at the command-stream offset, patching the first
LC_UUID record with the UUID derived from the build id. OS-level I/O
failures of open/copy/seek are outside the pure model; the result is the
final byte content of the output file, or the error that aborted the scan. -/
def machoRewriteUuid (buildID : String) (hdr : MachoFileHeader) (src : List Nat) :
    Except MachoErr (List Nat) :=
  rewriteLoop hdr.order buildID src (machoCmdOffset hdr) hdr.ncmd

/-- Offset of the first LC_UUID record reached within the given record
budget, when every record up to and including it has a readable header. -/
def scanToUuid (order : ByteOrder) (file : List Nat) : Nat → Nat → Option Nat
  | _next, 0 => none
  | next, i + 1 =>
    match readLoadCmd order file next with
    | none => none
    | some cmd =>
      if cmd.cmd = LC_UUID then some next
      else scanToUuid order file (next + cmd.len) i

/-- Every one of the given number of records has a readable header from the
cursor onward, and none carries the LC_UUID tag. -/
def scanNoUuid (order : ByteOrder) (file : List Nat) : Nat → Nat → Bool
  | _next, 0 => true
  | next, i + 1 =>
    match readLoadCmd order file next with
    | none => false
    | some cmd =>
      if cmd.cmd = LC_UUID then false
      else scanNoUuid order file (next + cmd.len) i

/-- Witness fixture: a 64-bit little-endian image summary declaring one load
command. -/
def hdrW : MachoFileHeader := ⟨Magic64, 1, ByteOrder.little⟩

/-- Witness fixture: a 56-byte image — 32 bytes of header, then a single
24-byte LC_UUID load command (tag 27, size 24, payload sixteen 7 bytes). -/
def fileW : List Nat :=
  List.range 32 ++ [27, 0, 0, 0] ++ [24, 0, 0, 0] ++ List.replicate 16 7

/-- Witness fixture: a 32-bit big-endian image summary declaring one load
command, whose first record in fileW is not an LC_UUID command. -/
def hdrNo : MachoFileHeader := ⟨0xfeedface, 1, ByteOrder.big⟩

theorem notsha256Sum256_length (s : String) : (notsha256Sum256 s).length = 32 := by
  simp [notsha256Sum256]

theorem uuidFromGoBuildId_length_aux (s : String) : (uuidFromGoBuildId s).length = 16 := by
  unfold uuidFromGoBuildId
  split
  · simp
  · simp [notsha256Sum256_length]

theorem low_nibble_or48_shift (x : Nat) : ((x &&& 15) ||| 48) >>> 4 = 3 := by
  have h : x &&& 15 < 16 := Nat.lt_succ_of_le Nat.and_le_right
  generalize x &&& 15 = y at h
  interval_cases y <;> decide

theorem low_six_or192_shift (x : Nat) : ((x &&& 63) ||| 192) >>> 6 = 3 := by
  have h : x &&& 63 < 64 := Nat.lt_succ_of_le Nat.and_le_right
  generalize x &&& 63 = y at h
  interval_cases y <;> decide

theorem uuidFromGoBuildId_getD6_eq (s : String) (h : s ≠ "") :
    (uuidFromGoBuildId s).getD 6 0 =
      ((((notsha256Sum256 s).take 16).getD 6 0) &&& 15) ||| 48 := by
  have hlen : ((notsha256Sum256 s).take 16).length = 16 := by
    simp [List.length_take, notsha256Sum256_length]
  simp only [uuidFromGoBuildId, if_neg h]
  rw [List.getD_eq_getElem?_getD,
    List.getElem?_set_ne (by omega : (8 : Nat) ≠ 6),
    List.getElem?_set_eq_of_lt _ (by omega : 6 < ((notsha256Sum256 s).take 16).length)]
  rfl

theorem uuidFromGoBuildId_getD8_eq (s : String) (h : s ≠ "") :
    (uuidFromGoBuildId s).getD 8 0 =
      ((((notsha256Sum256 s).take 16).set 6
          ((((notsha256Sum256 s).take 16).getD 6 0) &&& 15 ||| 48)).getD 8 0 &&& 63) ||| 192 := by
  have hlen : (((notsha256Sum256 s).take 16).set 6
      ((((notsha256Sum256 s).take 16).getD 6 0) &&& 15 ||| 48)).length = 16 := by
    simp [List.length_take, notsha256Sum256_length]
  simp only [uuidFromGoBuildId, if_neg h]
  rw [List.getD_eq_getElem?_getD, List.getElem?_set_eq_of_lt _ (by omega)]
  rfl

theorem uuidFromGoBuildId_empty_aux : uuidFromGoBuildId "" = List.replicate 16 0 := by
  simp [uuidFromGoBuildId]

theorem encode_decodeU32 (order : ByteOrder) (bs : List Nat) (hlen : bs.length = 4)
    (hb : ∀ b ∈ bs, b < 256) :
    encodeU32 order (decodeU32 order bs) = bs :=
  match bs, hlen with
  | [b0, b1, b2, b3], _ => by
    have h0 : b0 < 256 := hb b0 (by simp)
    have h1 : b1 < 256 := hb b1 (by simp)
    have h2 : b2 < 256 := hb b2 (by simp)
    have h3 : b3 < 256 := hb b3 (by simp)
    cases order <;>
      simp only [encodeU32, decodeU32, List.cons.injEq, and_true] <;>
      exact ⟨by omega, by omega, by omega, by omega⟩
  | [], h => nomatch h
  | [_], h => nomatch h
  | [_, _], h => nomatch h
  | [_, _, _], h => nomatch h
  | _ :: _ :: _ :: _ :: _ :: _, h => nomatch h

theorem copyBytes_eq_src (dst src : List Nat) (h : dst.length = src.length) :
    copyBytes dst src = src := by
  unfold copyBytes
  rw [h, Nat.min_self, List.take_length, ← h, List.drop_length, List.append_nil]

theorem readLoadCmd_of_le (order : ByteOrder) (file : List Nat) (off : Nat)
    (h : off + 8 ≤ file.length) :
    readLoadCmd order file off =
      some ⟨decodeU32 order ((file.drop off).take 4),
            decodeU32 order ((file.drop (off + 4)).take 4)⟩ := by
  unfold readLoadCmd readU32At
  rw [if_pos (by omega : off + 4 ≤ file.length),
    if_pos (by omega : off + 4 + 4 ≤ file.length)]

theorem readUuidCmd_of_le (order : ByteOrder) (file : List Nat) (off : Nat)
    (h : off + 24 ≤ file.length) :
    readUuidCmd order file off =
      some ⟨decodeU32 order ((file.drop off).take 4),
            decodeU32 order ((file.drop (off + 4)).take 4),
            (file.drop (off + 8)).take 16⟩ := by
  unfold readUuidCmd readU32At
  rw [if_pos (by omega : off + 4 ≤ file.length),
    if_pos (by omega : off + 4 + 4 ≤ file.length)]
  simp [h]

theorem writeBytesAt_of_le (file : List Nat) (off : Nat) (bytes : List Nat)
    (h : off + bytes.length ≤ file.length) :
    writeBytesAt file off bytes =
      some (file.take off ++ bytes ++ file.drop (off + bytes.length)) := by
  unfold writeBytesAt
  rw [if_pos h]

theorem patch_branch (order : ByteOrder) (bid : String) (file : List Nat) (o : Nat)
    (Hb : ∀ b ∈ file, b < 256) (h : o + 24 ≤ file.length) :
    writeBytesAt file o (uuidCmdBytes order
        { cmd := decodeU32 order ((file.drop o).take 4),
          len := decodeU32 order ((file.drop (o + 4)).take 4),
          uuid := copyBytes ((file.drop (o + 8)).take 16) (uuidFromGoBuildId bid) }) =
      some (file.take (o + 8) ++ uuidFromGoBuildId bid ++ file.drop (o + 24)) := by
  have h4a : ((file.drop o).take 4).length = 4 := by
    simp only [List.length_take, List.length_drop]
    omega
  have h4b : ((file.drop (o + 4)).take 4).length = 4 := by
    simp only [List.length_take, List.length_drop]
    omega
  have hw : ((file.drop (o + 8)).take 16).length = 16 := by
    simp only [List.length_take, List.length_drop]
    omega
  have hnew : (uuidFromGoBuildId bid).length = 16 := uuidFromGoBuildId_length_aux bid
  rw [copyBytes_eq_src _ _ (by rw [hw, hnew])]
  unfold uuidCmdBytes
  simp only
  rw [encode_decodeU32 order _ h4a
      (fun b hb1 => Hb b (List.mem_of_mem_drop (List.mem_of_mem_take hb1))),
    encode_decodeU32 order _ h4b
      (fun b hb1 => Hb b (List.mem_of_mem_drop (List.mem_of_mem_take hb1)))]
  have hlen24 : ((file.drop o).take 4 ++ (file.drop (o + 4)).take 4 ++
      uuidFromGoBuildId bid).length = 24 := by
    simp [h4a, h4b, hnew]
  rw [writeBytesAt_of_le _ _ _ (by rw [hlen24]; omega), hlen24]
  have hsplit8 : file.take (o + 8) = file.take o ++ (file.drop o).take 8 :=
    List.take_add file o 8
  have hsplit44 : (file.drop o).take 8 =
      (file.drop o).take 4 ++ (file.drop (o + 4)).take 4 := by
    have h8 : (8 : Nat) = 4 + 4 := rfl
    rw [h8, List.take_add, List.drop_drop]
  rw [hsplit8, hsplit44]
  simp [List.append_assoc]

theorem rewriteLoop_found (order : ByteOrder) (bid : String) (file : List Nat)
    (Hb : ∀ b ∈ file, b < 256) :
    ∀ (i next o : Nat), scanToUuid order file next i = some o → o + 24 ≤ file.length →
      rewriteLoop order bid file next i =
        Except.ok (file.take (o + 8) ++ uuidFromGoBuildId bid ++ file.drop (o + 24)) := by
  intro i
  induction i with
  | zero =>
    intro next o hscan _hlen
    simp [scanToUuid] at hscan
  | succ i ih =>
    intro next o hscan hlen
    simp only [scanToUuid] at hscan
    simp only [rewriteLoop]
    cases hread : readLoadCmd order file next with
    | none =>
      rw [hread] at hscan
      simp at hscan
    | some cmd =>
      rw [hread] at hscan
      simp only at hscan
      by_cases hcmd : cmd.cmd = LC_UUID
      · rw [if_pos hcmd] at hscan
        have hno : next = o := by simpa using hscan
        subst hno
        simp only [if_pos hcmd]
        rw [readUuidCmd_of_le order file next hlen]
        simp only
        rw [patch_branch order bid file next Hb hlen]
      · rw [if_neg hcmd] at hscan
        simp only [if_neg hcmd]
        exact ih (next + cmd.len) o hscan hlen

theorem rewriteLoop_noUuid (order : ByteOrder) (bid : String) (file : List Nat) :
    ∀ (i next : Nat), scanNoUuid order file next i = true →
      rewriteLoop order bid file next i = Except.ok file := by
  intro i
  induction i with
  | zero =>
    intro next _h
    rfl
  | succ i ih =>
    intro next hscan
    simp only [scanNoUuid] at hscan
    simp only [rewriteLoop]
    cases hread : readLoadCmd order file next with
    | none =>
      rw [hread] at hscan
      simp at hscan
    | some cmd =>
      rw [hread] at hscan
      simp only at hscan
      by_cases hcmd : cmd.cmd = LC_UUID
      · rw [if_pos hcmd] at hscan
        simp at hscan
      · rw [if_neg hcmd] at hscan
        simp only [if_neg hcmd]
        exact ih (next + cmd.len) hscan

theorem getD_take_lt (l : List Nat) (n j d : Nat) (h : j < n) :
    (l.take n).getD j d = l.getD j d := by
  rw [List.getD_eq_getElem?_getD, List.getD_eq_getElem?_getD, List.getElem?_take, if_pos h]

theorem getD_drop_add (l : List Nat) (m j d : Nat) :
    (l.drop m).getD j d = l.getD (m + j) d := by
  rw [List.getD_eq_getElem?_getD, List.getD_eq_getElem?_getD, List.getElem?_drop]

theorem getD_replicate_self (n j a : Nat) : (List.replicate n a).getD j a = a := by
  rw [List.getD_eq_getElem?_getD, List.getElem?_replicate]
  by_cases h : j < n <;> simp [h]

theorem patched_getD (file U : List Nat) (o : Nat) (hU : U.length = 16)
    (h : o + 24 ≤ file.length) :
    (∀ j, j < 16 →
      (file.take (o + 8) ++ U ++ file.drop (o + 24)).getD (o + 8 + j) 0 = U.getD j 0) ∧
    (∀ j, j < o + 8 ∨ o + 24 ≤ j →
      (file.take (o + 8) ++ U ++ file.drop (o + 24)).getD j 0 = file.getD j 0) := by
  have hlenTake : (file.take (o + 8)).length = o + 8 := by
    simp only [List.length_take]
    omega
  have hAU : (file.take (o + 8) ++ U).length = o + 24 := by
    rw [List.length_append, hlenTake, hU]
  constructor
  · intro j hj
    rw [List.getD_append _ _ _ _ (by rw [hAU]; omega),
      List.getD_append_right _ _ _ _ (by rw [hlenTake]; omega)]
    have hidx : o + 8 + j - (file.take (o + 8)).length = j := by
      rw [hlenTake]; omega
    rw [hidx]
  · intro j hj
    rcases hj with hj | hj
    · rw [List.getD_append _ _ _ _ (by rw [hAU]; omega),
        List.getD_append _ _ _ _ (by rw [hlenTake]; omega)]
      exact getD_take_lt file (o + 8) j 0 hj
    · rw [List.getD_append_right _ _ _ _ (by rw [hAU]; omega)]
      have hidx : j - (file.take (o + 8) ++ U).length = j - (o + 24) := by
        rw [hAU]
      rw [hidx, getD_drop_add]
      have hidx2 : o + 24 + (j - (o + 24)) = j := by omega
      rw [hidx2]

/-- C3: uuidFromGoBuildId applied to the empty string returns exactly sixteen
zero bytes. -/
theorem uuidFromGoBuildId_empty : uuidFromGoBuildId "" = List.replicate 16 0 := by
  simp [uuidFromGoBuildId]

/-- C10: for every input string, empty or not, uuidFromGoBuildId returns a
byte sequence of length exactly 16. -/
theorem uuidFromGoBuildId_length (s : String) : (uuidFromGoBuildId s).length = 16 :=
  uuidFromGoBuildId_length_aux s

/-- C8: uuidFromGoBuildId is deterministic — any two evaluations on equal
build-id strings yield identical outputs — and it is total, returning a
16-byte value for every input string. -/
theorem uuidFromGoBuildId_deterministic (s t : String) (h : s = t) :
    uuidFromGoBuildId s = uuidFromGoBuildId t ∧ (uuidFromGoBuildId s).length = 16 :=
  ⟨by rw [h], uuidFromGoBuildId_length_aux s⟩

theorem uuidFromGoBuildId_deterministic_witness :
    "abc123" = "abc123" ∧
      (uuidFromGoBuildId "abc123" = uuidFromGoBuildId "abc123" ∧
        (uuidFromGoBuildId "abc123").length = 16) :=
  ⟨rfl, uuidFromGoBuildId_deterministic "abc123" "abc123" rfl⟩

/-- C4: for every non-empty build-id string, byte index 6 of the derived UUID
has its high nibble equal to 0x3 (the RFC 4122 hash-based version nibble),
because the source masks the byte with 0x0f and then ors in 0x30. -/
theorem uuidFromGoBuildId_version_nibble (s : String) (h : s ≠ "") :
    (uuidFromGoBuildId s).getD 6 0 >>> 4 = 3 := by
  rw [uuidFromGoBuildId_getD6_eq s h]
  exact low_nibble_or48_shift _

theorem uuidFromGoBuildId_version_nibble_witness :
    "go-build-id" ≠ "" ∧ (uuidFromGoBuildId "go-build-id").getD 6 0 >>> 4 = 3 :=
  ⟨by decide, uuidFromGoBuildId_version_nibble "go-build-id" (by decide)⟩

/-- C2 divergence: the source sets byte 8 via rv[8] &= 0x3f; rv[8] |= 0xc0,
so for every non-empty build-id string the top two bits of byte index 8 of
the derived UUID are 0b11, not the RFC 4122 variant bits 0b10 that the claim
(and the RFC 4122 conformance comment in the source itself, which cites the
lld code using 0x80) requires. -/
theorem uuidFromGoBuildId_byte8_top_bits (s : String) (h : s ≠ "") :
    (uuidFromGoBuildId s).getD 8 0 >>> 6 = 3 := by
  rw [uuidFromGoBuildId_getD8_eq s h]
  exact low_six_or192_shift _

theorem uuidFromGoBuildId_byte8_top_bits_witness :
    "a" ≠ "" ∧ (uuidFromGoBuildId "a").getD 8 0 >>> 6 = 3 :=
  ⟨by decide, uuidFromGoBuildId_byte8_top_bits "a" (by decide)⟩

/-- C1: when the source image contains a UUID-tagged command within its first
Ncmd records — the record walk finds it at offset o, with the whole 24-byte
record inside the file — machoRewriteUuid produces an output equal to the
source except that the 16-byte UUID payload of that record is replaced, and
the output length equals the source length. -/
theorem machoRewriteUuid_frame (bid : String) (hdr : MachoFileHeader) (src : List Nat)
    (o : Nat)
    (Hscan : scanToUuid hdr.order src (machoCmdOffset hdr) hdr.ncmd = some o)
    (Hlen : o + 24 ≤ src.length)
    (Hb : ∀ b ∈ src, b < 256) :
    machoRewriteUuid bid hdr src =
      Except.ok (src.take (o + 8) ++ uuidFromGoBuildId bid ++ src.drop (o + 24)) ∧
      (src.take (o + 8) ++ uuidFromGoBuildId bid ++ src.drop (o + 24)).length =
        src.length := by
  constructor
  · exact rewriteLoop_found hdr.order bid src Hb hdr.ncmd (machoCmdOffset hdr) o Hscan Hlen
  · simp only [List.length_append, List.length_take, List.length_drop,
      uuidFromGoBuildId_length_aux]
    omega

theorem machoRewriteUuid_frame_witness :
    scanToUuid hdrW.order fileW (machoCmdOffset hdrW) hdrW.ncmd = some 32 ∧
      (machoRewriteUuid "abc123" hdrW fileW =
        Except.ok (fileW.take (32 + 8) ++ uuidFromGoBuildId "abc123" ++
          fileW.drop (32 + 24)) ∧
        (fileW.take (32 + 8) ++ uuidFromGoBuildId "abc123" ++
          fileW.drop (32 + 24)).length = fileW.length) :=
  ⟨by decide,
    machoRewriteUuid_frame "abc123" hdrW fileW 32 (by decide) (by decide) (by decide)⟩

/-- C5: the command-stream start offset is the fixed image-header size plus
one extra 4-byte word exactly when the parsed magic marks the 64-bit
variant, and machoRewriteUuid starts its record cursor at that offset. -/
theorem machoRewriteUuid_cmd_offset (bid : String) (hdr : MachoFileHeader)
    (src : List Nat) :
    (machoCmdOffset hdr = fileHeaderSize + 4 ↔ hdr.magic = Magic64) ∧
    (machoCmdOffset hdr = fileHeaderSize ↔ ¬hdr.magic = Magic64) ∧
    machoRewriteUuid bid hdr src =
      rewriteLoop hdr.order bid src (machoCmdOffset hdr) hdr.ncmd := by
  unfold machoCmdOffset fileHeaderSize
  refine ⟨?_, ?_, rfl⟩
  · by_cases h : hdr.magic = Magic64 <;> simp [h]
  · by_cases h : hdr.magic = Magic64 <;> simp [h]

/-- C6: the scan patches the first UUID-tagged record it reaches — its
16-byte payload becomes the identifier derived from the build id, written
back at the same offset — and every byte outside that window, in particular
any second UUID-tagged record later in the stream, is left unmodified. -/
theorem machoRewriteUuid_first_match (bid : String) (hdr : MachoFileHeader)
    (src : List Nat) (o : Nat)
    (Hscan : scanToUuid hdr.order src (machoCmdOffset hdr) hdr.ncmd = some o)
    (Hlen : o + 24 ≤ src.length)
    (Hb : ∀ b ∈ src, b < 256) :
    ∃ out, machoRewriteUuid bid hdr src = Except.ok out ∧
      (∀ j, j < 16 → out.getD (o + 8 + j) 0 = (uuidFromGoBuildId bid).getD j 0) ∧
      (∀ j, j < o + 8 ∨ o + 24 ≤ j → out.getD j 0 = src.getD j 0) := by
  refine ⟨src.take (o + 8) ++ uuidFromGoBuildId bid ++ src.drop (o + 24),
    rewriteLoop_found hdr.order bid src Hb hdr.ncmd (machoCmdOffset hdr) o Hscan Hlen,
    ?_, ?_⟩
  · exact (patched_getD src (uuidFromGoBuildId bid) o
      (uuidFromGoBuildId_length_aux bid) Hlen).1
  · exact (patched_getD src (uuidFromGoBuildId bid) o
      (uuidFromGoBuildId_length_aux bid) Hlen).2

theorem machoRewriteUuid_first_match_witness :
    scanToUuid hdrW.order fileW (machoCmdOffset hdrW) hdrW.ncmd = some 32 ∧
      ∃ out, machoRewriteUuid "xyz" hdrW fileW = Except.ok out ∧
        (∀ j, j < 16 → out.getD (32 + 8 + j) 0 = (uuidFromGoBuildId "xyz").getD j 0) ∧
        (∀ j, j < 32 + 8 ∨ 32 + 24 ≤ j → out.getD j 0 = fileW.getD j 0) :=
  ⟨by decide,
    machoRewriteUuid_first_match "xyz" hdrW fileW 32 (by decide) (by decide) (by decide)⟩

/-- C7: when the scan reads all Ncmd record headers without meeting the
UUID-command tag — including the degenerate case Ncmd = 0 — machoRewriteUuid
succeeds and the output file is byte-identical to the source. -/
theorem machoRewriteUuid_no_uuid (bid : String) (hdr : MachoFileHeader) (src : List Nat)
    (H : scanNoUuid hdr.order src (machoCmdOffset hdr) hdr.ncmd = true) :
    machoRewriteUuid bid hdr src = Except.ok src :=
  rewriteLoop_noUuid hdr.order bid src hdr.ncmd (machoCmdOffset hdr) H

theorem machoRewriteUuid_no_uuid_witness :
    scanNoUuid hdrNo.order fileW (machoCmdOffset hdrNo) hdrNo.ncmd = true ∧
      machoRewriteUuid "abc" hdrNo fileW = Except.ok fileW :=
  ⟨by decide, machoRewriteUuid_no_uuid "abc" hdrNo fileW (by decide)⟩

/-- C9: with an empty build id and a UUID-tagged record present, the
overwrite still happens: the 16 payload bytes of that record in the output
are all zero. -/
theorem machoRewriteUuid_empty_buildid (hdr : MachoFileHeader) (src : List Nat) (o : Nat)
    (Hscan : scanToUuid hdr.order src (machoCmdOffset hdr) hdr.ncmd = some o)
    (Hlen : o + 24 ≤ src.length)
    (Hb : ∀ b ∈ src, b < 256) :
    ∃ out, machoRewriteUuid "" hdr src = Except.ok out ∧
      ∀ j, j < 16 → out.getD (o + 8 + j) 0 = 0 := by
  refine ⟨src.take (o + 8) ++ uuidFromGoBuildId "" ++ src.drop (o + 24),
    rewriteLoop_found hdr.order "" src Hb hdr.ncmd (machoCmdOffset hdr) o Hscan Hlen,
    ?_⟩
  intro j hj
  rw [(patched_getD src (uuidFromGoBuildId "") o
    (uuidFromGoBuildId_length_aux "") Hlen).1 j hj]
  rw [uuidFromGoBuildId_empty_aux]
  exact getD_replicate_self 16 j 0

theorem machoRewriteUuid_empty_buildid_witness :
    scanToUuid hdrW.order fileW (machoCmdOffset hdrW) hdrW.ncmd = some 32 ∧
      ∃ out, machoRewriteUuid "" hdrW fileW = Except.ok out ∧
        ∀ j, j < 16 → out.getD (32 + 8 + j) 0 = 0 :=
  ⟨by decide,
    machoRewriteUuid_empty_buildid hdrW fileW 32 (by decide) (by decide) (by decide)⟩
